import Mathlib

/-!
Verification development for the PersonaFlow ingestion-to-admission pipeline
and its feedback loop, following the repository's backend design documents
(src/backend/backend.txt, src/design.txt) and the frontend reading surface
(src/frontend/app/settings/page.tsx).

The backend worker and API implementation files are not part of the source
tree; the backend data model and the two state-changing operations
(the pipeline run and the feedback action) are therefore modelled from the
specification, as marked on each definition. The frontend definitions are
translated directly from the TypeScript source.

Numeric conventions: vectors are lists of rationals; scores are real numbers
(cosine similarity involves a square root).
-/

namespace PersonaFlow

/-- Modelled from the spec: the backend `Article` table — declared in the
design document backend.txt only, the SQLAlchemy model file is missing —
with id, source_id, url UNIQUE, title, content, ai_summary,
ai_quality_score, ai_rationale, published_at, interaction_status (0 none,
1 liked, 2 disliked, 3 skipped), embedding. -/
structure Article where
  id : Nat
  source_id : Nat
  url : String
  title : String
  content : String
  ai_summary : Option String
  ai_quality_score : Option ℚ
  ai_rationale : Option String
  published_at : Nat
  interaction_status : Nat
  embedding : Option (List ℚ)
deriving DecidableEq

/-- Modelled from the spec: the `FeedQueue.status` column,
one of unread, liked, skipped. -/
inductive QStatus where
  | unread
  | liked
  | skipped
deriving DecidableEq

/-- Modelled from the spec: the backend `FeedQueue` table — its
implementation file is missing — with id, user_id, article_id, final_score,
status, created_at. -/
structure QueueEntry where
  id : Nat
  user_id : Nat
  article_id : Nat
  final_score : ℝ
  status : QStatus
  created_at : Nat

/-- Modelled from the spec: the persisted store shared by the pipeline and
the feedback path — the Article rows, the FeedQueue rows, and the single
user interest vector (`User.embedding`). -/
structure Store where
  articles : List Article
  queue : List QueueEntry
  user_embedding : List ℚ

/-- Modelled from the spec: external configuration of the Ranking Engine —
weights w1, w2 and the admission THRESHOLD. -/
structure Config where
  w1 : ℝ
  w2 : ℝ
  threshold : ℝ

/-- Dot product of two rational vectors (componentwise product, summed). -/
def dot (a b : List ℚ) : ℚ :=
  (List.zipWith (fun x y => x * y) a b).sum

/-- Squared Euclidean norm of a rational vector. -/
def normSq (a : List ℚ) : ℚ := dot a a

/-- Modelled from the spec: cosine similarity used by the Ranking Engine
(the worker implementation is missing). Cosine similarity of a zero-length
(or zero) vector is undefined; the spec requires treating it as 0 rather
than raising. -/
noncomputable def cosineSim (a b : List ℚ) : ℝ :=
  if normSq a = 0 ∨ normSq b = 0 then 0
  else (dot a b : ℝ) / (Real.sqrt (normSq a) * Real.sqrt (normSq b))

/-- Modelled from the spec: score fusion,
final_score = w1 * similarity + w2 * quality_score, where similarity is the
cosine of the article embedding against the interest vector. -/
noncomputable def fusedScore (cfg : Config) (interest : List ℚ) (e : List ℚ) (q : ℚ) : ℝ :=
  cfg.w1 * cosineSim e interest + cfg.w2 * (q : ℝ)

/-- Modelled from the spec: the feedback action of POST /api/feed/action,
like or skip. -/
inductive FAction where
  | like
  | skip
deriving DecidableEq

/-- Modelled from the spec: the response of POST /api/feed/action — success
with the new queue status, or a not-found condition for an unknown
article id. -/
inductive FResponse where
  | success (newStatus : QStatus)
  | notFound
deriving DecidableEq

/-- Exponential-moving-average update of the interest vector:
new_vector = old_vector * (1 - alpha) + article_embedding * alpha,
componentwise. -/
def vecEMA (alpha : ℚ) (old emb : List ℚ) : List ℚ :=
  List.zipWith (fun v x => v * (1 - alpha) + x * alpha) old emb

/-- Modelled from the spec: the handler of POST /api/feed/action (the API
implementation file is missing). For a known article id it sets
`Article.interaction_status` (1 for like, 3 for skip), sets the FeedQueue
status of that article to liked or skipped, and — only for a like whose
queue entry was still unread (the idempotency guard required by §4.6) —
applies the EMA update to the user interest vector. An unknown article id
yields a not-found response and leaves the store untouched. -/
def postFeedAction (alpha : ℚ) (s : Store) (aid : Nat) (act : FAction) :
    Store × FResponse :=
  match s.articles.find? (fun b => b.id == aid) with
  | none => (s, FResponse.notFound)
  | some a =>
      let newIS : Nat := match act with | .like => 1 | .skip => 3
      let newQS : QStatus := match act with | .like => .liked | .skip => .skipped
      let articles := s.articles.map
        (fun b => if b.id = aid then { b with interaction_status := newIS } else b)
      let wasUnread :=
        s.queue.any (fun e => e.article_id == aid && e.status == QStatus.unread)
      let queue := s.queue.map
        (fun e => if e.article_id = aid then { e with status := newQS } else e)
      let user :=
        match act with
        | .like =>
            match a.embedding with
            | some emb =>
                if wasUnread then vecEMA alpha s.user_embedding emb
                else s.user_embedding
            | none => s.user_embedding
        | .skip => s.user_embedding
      (⟨articles, queue, user⟩, FResponse.success newQS)

/-- Modelled from the spec: one fetched-and-extracted candidate produced by
the Fetcher/Extractor for a run, together with the outcomes of the external
embedding and scoring calls (none when the capability call failed after
retries or extraction failed, so the article is excluded from ranking). -/
structure Candidate where
  source_id : Nat
  url : String
  title : String
  content : String
  ai_summary : Option String
  quality : Option ℚ
  rationale : Option String
  published_at : Nat
  embedding : Option (List ℚ)
deriving DecidableEq

/-- Modelled from the spec: the Dedup Filter of §4.2 — a pure pass over the
candidate stream that drops any candidate whose URL is already known,
persisting each newly admitted URL into the known set before considering
the rest of the stream. -/
def dedupByUrl (known : List String) : List Candidate → List Candidate
  | [] => []
  | c :: rest =>
      if c.url ∈ known then dedupByUrl known rest
      else c :: dedupByUrl (c.url :: known) rest

/-- Modelled from the spec: storing one new candidate as an Article row in
its freshly processed state (interaction_status 0, pipeline fields filled
from the stage outcomes). -/
def mkArticle (i : Nat) (c : Candidate) : Article :=
  { id := i
    source_id := c.source_id
    url := c.url
    title := c.title
    content := c.content
    ai_summary := c.ai_summary
    ai_quality_score := c.quality
    ai_rationale := c.rationale
    published_at := c.published_at
    interaction_status := 0
    embedding := c.embedding }

/-- Modelled from the spec: storing the deduplicated candidates as Article
rows with consecutive fresh ids starting at `i`. -/
def mkArticles (i : Nat) : List Candidate → List Article
  | [] => []
  | c :: rest => mkArticle i c :: mkArticles (i + 1) rest

/-- Modelled from the spec: the Ranking Engine decision for one article —
when both the embedding and the quality score are present, compute the
fused score and admit (returning the score to record) exactly when it
exceeds the threshold; otherwise no admission. -/
noncomputable def rankArticle (cfg : Config) (interest : List ℚ) (a : Article) :
    Option ℝ :=
  match a.embedding, a.ai_quality_score with
  | some e, some q =>
      let f := fusedScore cfg interest e q
      if cfg.threshold < f then some f else none
  | _, _ => none

/-- Modelled from the spec: queue admission across the newly processed
articles of a run — a QueueEntry with status unread and the fused score
recorded is created for each admitted article, with consecutive fresh
entry ids starting at `qid`. -/
noncomputable def mkEntries (cfg : Config) (interest : List ℚ) (qid : Nat)
    (now : Nat) : List Article → List QueueEntry
  | [] => []
  | a :: rest =>
      match rankArticle cfg interest a with
      | some f =>
          ⟨qid, 1, a.id, f, QStatus.unread, now⟩ ::
            mkEntries cfg interest (qid + 1) now rest
      | none => mkEntries cfg interest qid now rest

/-- Modelled from the spec: one run of the background worker (the
`background_worker.py` implementation is missing) — fetch yields the
candidate list, the dedup filter drops already-known URLs, the survivors
are stored as new Article rows, and the Ranking Engine admits the newly
processed articles whose fused score clears the threshold into the
FeedQueue. Previously stored rows are never re-processed and the
interest vector is read, not written. -/
noncomputable def runPipeline (cfg : Config) (s : Store) (cands : List Candidate)
    (now : Nat) : Store :=
  { articles := s.articles ++
      mkArticles s.articles.length (dedupByUrl (s.articles.map (fun a => a.url)) cands)
    queue := s.queue ++ mkEntries cfg s.user_embedding s.queue.length now
      (mkArticles s.articles.length (dedupByUrl (s.articles.map (fun a => a.url)) cands))
    user_embedding := s.user_embedding }

/-- Modelled from the spec: the store states reachable from a first-run
store (empty tables, a default or seed interest vector) by any interleaving
of pipeline runs and feedback actions. -/
inductive Reachable : Store → Prop
  | init (v : List ℚ) : Reachable ⟨[], [], v⟩
  | run (cfg : Config) (cands : List Candidate) (now : Nat) {s : Store} :
      Reachable s → Reachable (runPipeline cfg s cands now)
  | feedback (alpha : ℚ) (aid : Nat) (act : FAction) {s : Store} :
      Reachable s → Reachable (postFeedAction alpha s aid act).1

/-- Store well-formedness: distinct URLs and ids across Article rows, ids
within range, and queue entries with distinct, in-range article ids. -/
structure WF (s : Store) : Prop where
  urls_nodup : (s.articles.map (fun a => a.url)).Nodup
  ids_lt : ∀ a ∈ s.articles, a.id < s.articles.length
  ids_nodup : (s.articles.map (fun a => a.id)).Nodup
  q_aids_nodup : (s.queue.map (fun e => e.article_id)).Nodup
  q_aids_lt : ∀ e ∈ s.queue, e.article_id < s.articles.length

/-! Frontend reading surface, translated from the FeedPage component in
src/frontend/app/settings/page.tsx. -/

/-- The three UI actions of the reading surface: the like control, the
read/next control, and the dislike control (the `handleAction` parameter
type `"like" | "read" | "dislike"`). -/
inductive UIAction where
  | like
  | read
  | dislike
deriving DecidableEq

/-- The action string sent to POST /api/feed/action, from the ternary in
`handleAction`:
`action === "dislike" ? "skip" : action === "read" ? "skip" : "like"`. -/
def apiAction (action : UIAction) : String :=
  if action = UIAction.dislike then "skip"
  else if action = UIAction.read then "skip"
  else "like"

/-- The article shape consumed by the FeedPage component. -/
structure FrontArticle where
  id : Nat
  title : String
  content : String
  ai_summary : String
  ai_rationale : String
  published_at : String
  url : String
  source_name : String
deriving DecidableEq

/-- The FeedPage client state relevant to `handleAction`: the fetched
article list, the current card, and the two transition flags. -/
structure FeedState where
  articles : List FrontArticle
  currentArticle : Option FrontArticle
  isTransitioning : Bool
  isRevealingNext : Bool
deriving DecidableEq

/-- Outcome of the POST /api/feed/action request made by `handleAction`:
an OK response, a non-OK HTTP status (which the code turns into a thrown
error), or a network error. -/
inductive FetchResult where
  | ok
  | httpError (status : Nat)
  | networkError
deriving DecidableEq

/-- `handleAction` from the FeedPage component, as the settled state after
its timeouts have fired: if there is no current article or a transition is
in flight, nothing happens; otherwise — whatever the feedback request
returned, since the catch block only logs — the card list advances by one
(`articles.slice(1)`), the next remaining article (or none) becomes
current, and the transition flags end cleared. -/
def handleAction (st : FeedState) (act : UIAction) (res : FetchResult) :
    FeedState :=
  if st.currentArticle.isNone || st.isTransitioning || st.isRevealingNext then st
  else
    match st.articles.drop 1 with
    | [] =>
        { articles := []
          currentArticle := none
          isTransitioning := false
          isRevealingNext := false }
    | a :: rest =>
        { articles := a :: rest
          currentArticle := some a
          isTransitioning := false
          isRevealingNext := false }

/-- Erase the interaction status of an Article row, keeping every other
field: used to state that an operation changes nothing but statuses. -/
def clearArticleStatus (a : Article) : Article :=
  { a with interaction_status := 0 }

/-- Erase the status of a QueueEntry row, keeping every other field. -/
def clearEntryStatus (e : QueueEntry) : QueueEntry :=
  { e with status := QStatus.unread }

/-! Theorems. -/

/-- C9: for every feedback action initiated from the reading surface, the
action field sent to POST /api/feed/action is "like" exactly when the
reader pressed the like control; both the dislike and the read/next
controls are mapped to "skip", so the core can never receive a distinct
dislike action from this client. -/
theorem C9_apiAction_like_iff :
    (∀ a : UIAction, apiAction a = "like" ↔ a = UIAction.like) ∧
    apiAction UIAction.dislike = "skip" ∧ apiAction UIAction.read = "skip" := by
  refine ⟨fun a => ?_, by decide, by decide⟩
  cases a <;> simp [apiAction]

/-- C10: when the POST /api/feed/action request fails (non-OK response or
network error), the reading surface still removes the current card and
advances to the next queued article or the end screen — the settled state
is the same as on a successful request, the article list loses its head,
and the current card becomes the next remaining article (or none). -/
theorem C10_advance_despite_failure (st : FeedState) (a : FrontArticle)
    (act : UIAction) (res : FetchResult)
    (hc : st.currentArticle = some a)
    (ht : st.isTransitioning = false)
    (hr : st.isRevealingNext = false) :
    handleAction st act res = handleAction st act FetchResult.ok ∧
    (handleAction st act res).articles = st.articles.drop 1 ∧
    (handleAction st act res).currentArticle = (st.articles.drop 1).head? := by
  unfold handleAction
  rw [hc, ht, hr]
  simp only [Option.isNone_some, Bool.or_self, Bool.or_false, Bool.false_or,
    if_false, Bool.false_eq_true]
  cases hdrop : st.articles.drop 1 with
  | nil => simp
  | cons x xs => simp

/-- Witness for C10 at a concrete two-card state and a network error. -/
theorem C10_witness :
    (⟨[⟨1, "t", "c", "s", "r", "p", "u", "n"⟩,
       ⟨2, "t2", "c2", "s2", "r2", "p2", "u2", "n2"⟩],
      some ⟨1, "t", "c", "s", "r", "p", "u", "n"⟩, false, false⟩ :
        FeedState).currentArticle = some ⟨1, "t", "c", "s", "r", "p", "u", "n"⟩ ∧
    (handleAction
        ⟨[⟨1, "t", "c", "s", "r", "p", "u", "n"⟩,
          ⟨2, "t2", "c2", "s2", "r2", "p2", "u2", "n2"⟩],
         some ⟨1, "t", "c", "s", "r", "p", "u", "n"⟩, false, false⟩
        UIAction.like FetchResult.networkError).currentArticle
      = ([⟨1, "t", "c", "s", "r", "p", "u", "n"⟩,
          ⟨2, "t2", "c2", "s2", "r2", "p2", "u2", "n2"⟩].drop 1).head? := by
  exact ⟨rfl,
    (C10_advance_despite_failure _ _ UIAction.like FetchResult.networkError
      rfl rfl rfl).2.2⟩

/-- C7: a feedback event whose article id does not identify an existing
article is answered with a not-found condition and the store is returned
unchanged — an unknown-id feedback event has no side effect on Article,
QueueEntry or the interest vector. -/
theorem C7_unknown_id_no_effect (alpha : ℚ) (s : Store) (aid : Nat)
    (act : FAction)
    (h : s.articles.find? (fun b => b.id == aid) = none) :
    postFeedAction alpha s aid act = (s, FResponse.notFound) := by
  unfold postFeedAction
  rw [h]

/-- Witness for C7 on the empty store. -/
theorem C7_witness :
    (([] : List Article).find? (fun b => b.id == 0) = none) ∧
    postFeedAction 0 ⟨[], [], []⟩ 0 FAction.like = (⟨[], [], []⟩, FResponse.notFound) := by
  exact ⟨rfl, C7_unknown_id_no_effect 0 ⟨[], [], []⟩ 0 FAction.like rfl⟩

/-- C8: a skip feedback action changes only the status fields of the
Article and QueueEntry rows involved — erasing statuses on both sides
yields identical tables — and the interest vector is unchanged by every
skip action, in every state. -/
theorem C8_skip_never_touches_interest (alpha : ℚ) (s : Store) (aid : Nat) :
    (postFeedAction alpha s aid FAction.skip).1.user_embedding = s.user_embedding ∧
    (postFeedAction alpha s aid FAction.skip).1.articles.map clearArticleStatus
      = s.articles.map clearArticleStatus ∧
    (postFeedAction alpha s aid FAction.skip).1.queue.map clearEntryStatus
      = s.queue.map clearEntryStatus := by
  unfold postFeedAction
  cases h : s.articles.find? (fun b => b.id == aid) with
  | none => exact ⟨rfl, rfl, rfl⟩
  | some a =>
      refine ⟨rfl, ?_, ?_⟩
      · rw [List.map_map]
        apply List.map_congr_left
        intro b _
        by_cases hb : b.id = aid <;>
          simp [clearArticleStatus, hb, Function.comp]
      · rw [List.map_map]
        apply List.map_congr_left
        intro e _
        by_cases he : e.article_id = aid <;>
          simp [clearEntryStatus, he, Function.comp]

/-- C6: when the interest vector or the article embedding is a zero-length
or zero vector, the similarity is 0 rather than undefined, and the fused
score degenerates to w2 * quality, so the score-fusion step is total and
never aborts on an undefined cosine. -/
theorem C6_zero_vector_similarity (e V : List ℚ)
    (h : normSq e = 0 ∨ normSq V = 0) :
    cosineSim e V = 0 ∧
    ∀ cfg : Config, ∀ q : ℚ, fusedScore cfg V e q = cfg.w2 * (q : ℝ) := by
  have hc : cosineSim e V = 0 := by
    unfold cosineSim
    rw [if_pos h]
  refine ⟨hc, fun cfg q => ?_⟩
  unfold fusedScore
  rw [hc]
  ring

/-- Witness for C6 with the empty embedding against a nonzero interest
vector. -/
theorem C6_witness :
    (normSq [] = 0 ∨ normSq [1] = 0) ∧
    (cosineSim [] [1] = 0 ∧
      ∀ cfg : Config, ∀ q : ℚ, fusedScore cfg [1] [] q = cfg.w2 * (q : ℝ)) := by
  exact ⟨Or.inl rfl, C6_zero_vector_similarity [] [1] (Or.inl rfl)⟩

/-- Finding an article by id through an id-preserving row update is the
update of the article found in the original table. -/
theorem find?_map_of_id_eq (l : List Article) (aid : Nat) (g : Article → Article)
    (hg : ∀ b, (g b).id = b.id) :
    (l.map g).find? (fun b => b.id == aid)
      = (l.find? (fun b => b.id == aid)).map g := by
  induction l with
  | nil => rfl
  | cons b t ih =>
      simp only [List.map_cons, List.find?]
      rw [hg b]
      cases hb : (b.id == aid) <;> simp [ih]

/-- A like action on a found article rewrites the store componentwise:
interaction status 1, queue status liked, and the EMA applied exactly when
the queue still held an unread entry for that article. -/
theorem postFeedAction_like_found (alpha : ℚ) (s : Store) (aid : Nat) (a : Article)
    (hf : s.articles.find? (fun b => b.id == aid) = some a) :
    postFeedAction alpha s aid FAction.like =
      (⟨List.map
          (fun b => if b.id = aid then { b with interaction_status := 1 } else b)
          s.articles,
        List.map
          (fun e => if e.article_id = aid then { e with status := QStatus.liked } else e)
          s.queue,
        match a.embedding with
        | some emb =>
            if s.queue.any (fun e => e.article_id == aid && e.status == QStatus.unread)
            then vecEMA alpha s.user_embedding emb
            else s.user_embedding
        | none => s.user_embedding⟩,
       FResponse.success QStatus.liked) := by
  unfold postFeedAction
  rw [hf]

/-- C3: processing a like action for an article with embedding E when the
interest vector is V and the queue entry is still unread sets the interest
vector to exactly V * (1 - alpha) + E * alpha componentwise, answers
success, and the queue entry of that article ends with status liked. -/
theorem C3_like_applies_ema (alpha : ℚ) (s : Store) (aid : Nat)
    (a : Article) (emb : List ℚ)
    (hf : s.articles.find? (fun b => b.id == aid) = some a)
    (he : a.embedding = some emb)
    (hu : s.queue.any (fun e => e.article_id == aid && e.status == QStatus.unread)
            = true) :
    (postFeedAction alpha s aid FAction.like).2 = FResponse.success QStatus.liked ∧
    (postFeedAction alpha s aid FAction.like).1.user_embedding
      = List.zipWith (fun v x => v * (1 - alpha) + x * alpha) s.user_embedding emb ∧
    ∀ e ∈ (postFeedAction alpha s aid FAction.like).1.queue,
      e.article_id = aid → e.status = QStatus.liked := by
  rw [postFeedAction_like_found alpha s aid a hf, he, hu]
  refine ⟨rfl, by simp [vecEMA], ?_⟩
  intro e hmem hid
  rcases List.mem_map.1 hmem with ⟨e₀, _, rfl⟩
  by_cases h₀ : e₀.article_id = aid
  · simp [h₀]
  · rw [if_neg h₀] at hid ⊢
    exact absurd hid h₀

/-- Witness for C3 on a one-article, one-entry store. -/
theorem C3_witness :
    ((Store.mk
        [⟨7, 0, "u", "t", "c", none, some (4/5), none, 0, 0, some [2]⟩]
        [⟨0, 1, 7, (0 : ℝ), QStatus.unread, 0⟩]
        [10]).articles.find? (fun b => b.id == 7)
      = some ⟨7, 0, "u", "t", "c", none, some (4/5), none, 0, 0, some [2]⟩) ∧
    ((Store.mk
        [⟨7, 0, "u", "t", "c", none, some (4/5), none, 0, 0, some [2]⟩]
        [⟨0, 1, 7, (0 : ℝ), QStatus.unread, 0⟩]
        [10]).queue.any
          (fun e => e.article_id == 7 && e.status == QStatus.unread) = true) ∧
    (postFeedAction (2/10)
        (Store.mk
          [⟨7, 0, "u", "t", "c", none, some (4/5), none, 0, 0, some [2]⟩]
          [⟨0, 1, 7, (0 : ℝ), QStatus.unread, 0⟩]
          [10]) 7 FAction.like).1.user_embedding
      = List.zipWith (fun v x => v * (1 - (2/10)) + x * (2/10)) [10] [2] := by
  refine ⟨rfl, rfl, ?_⟩
  exact (C3_like_applies_ema (2/10)
    (Store.mk
      [⟨7, 0, "u", "t", "c", none, some (4/5), none, 0, 0, some [2]⟩]
      [⟨0, 1, 7, (0 : ℝ), QStatus.unread, 0⟩]
      [10]) 7
    ⟨7, 0, "u", "t", "c", none, some (4/5), none, 0, 0, some [2]⟩
    [2] rfl rfl rfl).2.1

/-- C4: a second like on an already-liked queue entry does not apply the
interest update again — after a successful like, running the same like once
more leaves the interest vector exactly as it was after the first like. -/
theorem C4_like_idempotent (alpha : ℚ) (s s₁ : Store) (aid : Nat) (st : QStatus)
    (h1 : postFeedAction alpha s aid FAction.like = (s₁, FResponse.success st)) :
    (postFeedAction alpha s₁ aid FAction.like).1.user_embedding
      = s₁.user_embedding := by
  cases hf : s.articles.find? (fun b => b.id == aid) with
  | none =>
      unfold postFeedAction at h1
      rw [hf] at h1
      exact absurd (congrArg Prod.snd h1) (by simp)
  | some a =>
      rw [postFeedAction_like_found alpha s aid a hf] at h1
      injection h1 with hs₁ hst
      have hg : ∀ b : Article,
          ((if b.id = aid then { b with interaction_status := 1 } else b) : Article).id
            = b.id := by
        intro b; by_cases hb : b.id = aid <;> simp [hb]
      have hf₂ : s₁.articles.find? (fun b => b.id == aid)
          = some (if a.id = aid then { a with interaction_status := 1 } else a) := by
        rw [← hs₁]
        show (List.map _ s.articles).find? _ = _
        rw [find?_map_of_id_eq _ aid _ hg, hf]
        rfl
      have hq : s₁.queue.any
          (fun e => e.article_id == aid && e.status == QStatus.unread) = false := by
        rw [← hs₁]
        show (List.map _ s.queue).any _ = false
        rw [List.any_map, List.any_eq_false]
        intro e _
        by_cases he : e.article_id = aid <;> simp [Function.comp, he]
      rw [postFeedAction_like_found alpha s₁ aid _ hf₂]
      have hgemb :
          ((if a.id = aid then { a with interaction_status := 1 } else a) : Article).embedding
            = a.embedding := by
        by_cases hb : a.id = aid <;> simp [hb]
      show (match ((if a.id = aid then { a with interaction_status := 1 } else a) :
          Article).embedding with
        | some emb =>
            if s₁.queue.any (fun e => e.article_id == aid && e.status == QStatus.unread)
            then vecEMA alpha s₁.user_embedding emb
            else s₁.user_embedding
        | none => s₁.user_embedding) = s₁.user_embedding
      rw [hgemb]
      cases a.embedding with
      | none => rfl
      | some emb => rw [hq]; simp

/-- Witness for C4: a concrete first like, then the theorem applied to it. -/
theorem C4_witness :
    (postFeedAction (2/10)
        (Store.mk
          [⟨7, 0, "u", "t", "c", none, some (4/5), none, 0, 0, some [2]⟩]
          [⟨0, 1, 7, (0 : ℝ), QStatus.unread, 0⟩]
          [10]) 7 FAction.like
      = (Store.mk
          [⟨7, 0, "u", "t", "c", none, some (4/5), none, 0, 1, some [2]⟩]
          [⟨0, 1, 7, (0 : ℝ), QStatus.liked, 0⟩]
          [10 * (1 - (2/10)) + 2 * (2/10)], FResponse.success QStatus.liked)) ∧
    (postFeedAction (2/10)
        (Store.mk
          [⟨7, 0, "u", "t", "c", none, some (4/5), none, 0, 1, some [2]⟩]
          [⟨0, 1, 7, (0 : ℝ), QStatus.liked, 0⟩]
          [10 * (1 - (2/10)) + 2 * (2/10)]) 7 FAction.like).1.user_embedding
      = [10 * (1 - (2/10)) + 2 * (2/10)] := by
  refine ⟨rfl, ?_⟩
  exact C4_like_idempotent (2/10)
    (Store.mk
      [⟨7, 0, "u", "t", "c", none, some (4/5), none, 0, 0, some [2]⟩]
      [⟨0, 1, 7, (0 : ℝ), QStatus.unread, 0⟩]
      [10])
    (Store.mk
      [⟨7, 0, "u", "t", "c", none, some (4/5), none, 0, 1, some [2]⟩]
      [⟨0, 1, 7, (0 : ℝ), QStatus.liked, 0⟩]
      [10 * (1 - (2/10)) + 2 * (2/10)])
    7 QStatus.liked rfl

/-- The queue after a run is the old queue extended by the admissions over
the newly stored articles. -/
theorem runPipeline_queue (cfg : Config) (s : Store) (cands : List Candidate)
    (now : Nat) :
    (runPipeline cfg s cands now).queue
      = s.queue ++ mkEntries cfg s.user_embedding s.queue.length now
          (mkArticles s.articles.length
            (dedupByUrl (s.articles.map (fun a => a.url)) cands)) := rfl

/-- The articles after a run are the old rows, untouched, followed by the
newly stored rows. -/
theorem runPipeline_articles (cfg : Config) (s : Store) (cands : List Candidate)
    (now : Nat) :
    (runPipeline cfg s cands now).articles
      = s.articles ++ mkArticles s.articles.length
          (dedupByUrl (s.articles.map (fun a => a.url)) cands) := rfl

/-- A pipeline run reads but never writes the interest vector. -/
theorem runPipeline_user (cfg : Config) (s : Store) (cands : List Candidate)
    (now : Nat) :
    (runPipeline cfg s cands now).user_embedding = s.user_embedding := rfl

/-- The Ranking Engine decision in closed form for an article carrying both
an embedding and a quality score. -/
theorem rankArticle_eq (cfg : Config) (V : List ℚ) (a : Article)
    (e : List ℚ) (q : ℚ)
    (he : a.embedding = some e) (hq : a.ai_quality_score = some q) :
    rankArticle cfg V a
      = if cfg.threshold < fusedScore cfg V e q
        then some (fusedScore cfg V e q) else none := by
  unfold rankArticle
  rw [he, hq]

/-- Queue admission over a single newly stored article. -/
theorem mkEntries_single (cfg : Config) (V : List ℚ) (qid now : Nat) (a : Article) :
    mkEntries cfg V qid now [a]
      = match rankArticle cfg V a with
        | some f => [⟨qid, 1, a.id, f, QStatus.unread, now⟩]
        | none => [] := by
  cases h : rankArticle cfg V a <;> simp [mkEntries, h]

/-- The dedup filter keeps a single candidate whose URL is unknown. -/
theorem dedupByUrl_single_new (known : List String) (c : Candidate)
    (h : c.url ∉ known) : dedupByUrl known [c] = [c] := by
  unfold dedupByUrl
  rw [if_neg h]
  rfl

/-- One run on one fresh candidate with embedding and quality present:
the queue is extended by exactly one unread entry recording the fused
score when the score clears the threshold, and is unchanged otherwise. -/
theorem runPipeline_single_queue (cfg : Config) (s : Store) (c : Candidate)
    (e : List ℚ) (q : ℚ) (now : Nat)
    (hurl : c.url ∉ s.articles.map (fun a => a.url))
    (he : c.embedding = some e) (hq : c.quality = some q) :
    (runPipeline cfg s [c] now).queue
      = s.queue ++
        (if cfg.threshold < fusedScore cfg s.user_embedding e q
         then [⟨s.queue.length, 1, s.articles.length,
                fusedScore cfg s.user_embedding e q, QStatus.unread, now⟩]
         else []) := by
  rw [runPipeline_queue, dedupByUrl_single_new _ _ hurl]
  show s.queue ++ mkEntries cfg s.user_embedding s.queue.length now
      [mkArticle s.articles.length c] = _
  rw [mkEntries_single, rankArticle_eq cfg s.user_embedding _ e q he hq]
  by_cases hlt : cfg.threshold < fusedScore cfg s.user_embedding e q
  · rw [if_pos hlt, if_pos hlt]
    rfl
  · rw [if_neg hlt, if_neg hlt]

/-- The concrete cosine of the scenario vectors is exactly 9/10. -/
theorem cosineSim_scenario : cosineSim [9, 3, 3, 1] [1, 0, 0, 0] = 9/10 := by
  have hna : normSq ([9, 3, 3, 1] : List ℚ) = 100 := by
    norm_num [normSq, dot]
  have hnb : normSq ([1, 0, 0, 0] : List ℚ) = 1 := by
    norm_num [normSq, dot]
  have hdot : dot ([9, 3, 3, 1] : List ℚ) [1, 0, 0, 0] = 9 := by
    norm_num [dot]
  have hguard : ¬ (normSq ([9, 3, 3, 1] : List ℚ) = 0
      ∨ normSq ([1, 0, 0, 0] : List ℚ) = 0) := by
    rw [hna, hnb]; norm_num
  unfold cosineSim
  rw [if_neg hguard, hna, hnb, hdot]
  have h100 : Real.sqrt ((100 : ℚ) : ℝ) = 10 := by
    rw [show ((100 : ℚ) : ℝ) = (10 : ℝ) ^ 2 by norm_num]
    exact Real.sqrt_sq (by norm_num)
  have h1 : Real.sqrt ((1 : ℚ) : ℝ) = 1 := by
    rw [show ((1 : ℚ) : ℝ) = (1 : ℝ) by norm_num]
    exact Real.sqrt_one
  rw [h100, h1]
  norm_num

/-- C1: for an article with both an embedding and a quality score and no
prior queue decision (here: a fresh URL, since the model ranks exactly the
newly stored articles), the fused score is w1 * cosine + w2 * quality and a
QueueEntry with status unread recording that score is created iff the score
exceeds THRESHOLD; with similarity 0.9 (realized by concrete vectors),
quality 0.8, w1 = 0.6, w2 = 0.4, THRESHOLD = 0.7, the final score is 0.86
and the article is admitted. -/
theorem C1_fusion_and_admission (cfg : Config) (s : Store) (c : Candidate)
    (e : List ℚ) (q : ℚ) (now : Nat)
    (hurl : c.url ∉ s.articles.map (fun a => a.url))
    (he : c.embedding = some e) (hq : c.quality = some q) :
    (fusedScore cfg s.user_embedding e q
        = cfg.w1 * cosineSim e s.user_embedding + cfg.w2 * (q : ℝ)) ∧
    (fusedScore cfg s.user_embedding e q > cfg.threshold →
      (runPipeline cfg s [c] now).queue
        = s.queue ++ [⟨s.queue.length, 1, s.articles.length,
            fusedScore cfg s.user_embedding e q, QStatus.unread, now⟩]) ∧
    (¬ fusedScore cfg s.user_embedding e q > cfg.threshold →
      (runPipeline cfg s [c] now).queue = s.queue) ∧
    (cosineSim [9, 3, 3, 1] [1, 0, 0, 0] = 9/10 ∧
      fusedScore ⟨6/10, 4/10, 7/10⟩ [1, 0, 0, 0] [9, 3, 3, 1] (4/5) = 86/100 ∧
      (runPipeline ⟨6/10, 4/10, 7/10⟩ ⟨[], [], [1, 0, 0, 0]⟩
          [⟨0, "https://a/1", "t", "c", none, some (4/5), none, 0,
            some [9, 3, 3, 1]⟩] 0).queue
        = [⟨0, 1, 0, 86/100, QStatus.unread, 0⟩]) := by
  have hfusedS : fusedScore ⟨6/10, 4/10, 7/10⟩ [1, 0, 0, 0] [9, 3, 3, 1] (4/5)
      = 86/100 := by
    unfold fusedScore
    rw [cosineSim_scenario]
    push_cast
    norm_num
  refine ⟨rfl, ?_, ?_, cosineSim_scenario, hfusedS, ?_⟩
  · intro h
    rw [runPipeline_single_queue cfg s c e q now hurl he hq, if_pos h]
  · intro h
    rw [runPipeline_single_queue cfg s c e q now hurl he hq, if_neg h]
    exact List.append_nil s.queue
  · rw [runPipeline_single_queue ⟨6/10, 4/10, 7/10⟩ ⟨[], [], [1, 0, 0, 0]⟩
        ⟨0, "https://a/1", "t", "c", none, some (4/5), none, 0,
          some [9, 3, 3, 1]⟩ [9, 3, 3, 1] (4/5) 0 (by simp) rfl rfl]
    rw [hfusedS]
    rw [if_pos (by norm_num : (7/10 : ℝ) < 86/100)]
    rfl

/-- Witness for C1 at the scenario store and candidate. -/
theorem C1_witness :
    (("https://a/1" : String)
        ∉ (([] : List Article).map (fun a => a.url))) ∧
    (fusedScore ⟨6/10, 4/10, 7/10⟩ [1, 0, 0, 0] [9, 3, 3, 1] (4/5)
        = (6/10 : ℝ) * cosineSim [9, 3, 3, 1] [1, 0, 0, 0]
            + (4/10 : ℝ) * ((4/5 : ℚ) : ℝ)) := by
  refine ⟨by simp, ?_⟩
  exact (C1_fusion_and_admission ⟨6/10, 4/10, 7/10⟩ ⟨[], [], [1, 0, 0, 0]⟩
    ⟨0, "https://a/1", "t", "c", none, some (4/5), none, 0, some [9, 3, 3, 1]⟩
    [9, 3, 3, 1] (4/5) 0 (by simp) rfl rfl).1

/-- The dedup filter yields candidates with pairwise distinct URLs, none of
which was already known. -/
theorem dedupByUrl_spec (l : List Candidate) : ∀ known : List String,
    ((dedupByUrl known l).map (fun c => c.url)).Nodup ∧
    ∀ c ∈ dedupByUrl known l, c.url ∉ known := by
  induction l with
  | nil =>
      intro known
      exact ⟨List.nodup_nil, by intro c hc; simp [dedupByUrl] at hc⟩
  | cons c rest ih =>
      intro known
      by_cases hc : c.url ∈ known
      · simp only [dedupByUrl, if_pos hc]
        exact ⟨(ih known).1, fun d hd => (ih known).2 d hd⟩
      · simp only [dedupByUrl, if_neg hc]
        obtain ⟨ihn, ihf⟩ := ih (c.url :: known)
        refine ⟨?_, ?_⟩
        · rw [List.map_cons, List.nodup_cons]
          refine ⟨?_, ihn⟩
          intro hmem
          rcases List.mem_map.1 hmem with ⟨d, hd, hdu⟩
          exact ihf d hd (by rw [hdu]; exact List.mem_cons_self _ _)
        · intro d hd
          rcases List.mem_cons.1 hd with rfl | hd₂
          · exact hc
          · intro hk
            exact ihf d hd₂ (List.mem_cons_of_mem _ hk)

/-- Storing candidates preserves the URL column. -/
theorem mkArticles_map_url (l : List Candidate) : ∀ n : Nat,
    (mkArticles n l).map (fun a => a.url) = l.map (fun c => c.url) := by
  induction l with
  | nil => intro n; rfl
  | cons c rest ih => intro n; simp [mkArticles, mkArticle, ih]

/-- Storing candidates creates one row per candidate. -/
theorem mkArticles_length (l : List Candidate) : ∀ n : Nat,
    (mkArticles n l).length = l.length := by
  induction l with
  | nil => intro n; rfl
  | cons c rest ih => intro n; simp [mkArticles, ih]

/-- Freshly assigned article ids lie in the block starting at `n`. -/
theorem mkArticles_id_bounds (l : List Candidate) : ∀ n : Nat, ∀ a ∈ mkArticles n l,
    n ≤ a.id ∧ a.id < n + l.length := by
  induction l with
  | nil => intro n a ha; simp [mkArticles] at ha
  | cons c rest ih =>
      intro n a ha
      simp only [mkArticles] at ha
      rcases List.mem_cons.1 ha with rfl | ha₂
      · refine ⟨Nat.le_refl _, ?_⟩
        simp only [mkArticle, List.length_cons]
        omega
      · have := ih (n + 1) a ha₂
        simp only [List.length_cons]
        omega

/-- Freshly assigned article ids are pairwise distinct. -/
theorem mkArticles_ids_nodup (l : List Candidate) : ∀ n : Nat,
    ((mkArticles n l).map (fun a => a.id)).Nodup := by
  induction l with
  | nil => intro n; simp [mkArticles]
  | cons c rest ih =>
      intro n
      simp only [mkArticles, List.map_cons, List.nodup_cons]
      refine ⟨?_, ih (n + 1)⟩
      intro hmem
      rcases List.mem_map.1 hmem with ⟨a, ha, haid⟩
      have hb := (mkArticles_id_bounds rest (n + 1) a ha).1
      rw [haid] at hb
      simp only [mkArticle] at hb
      omega

/-- The queue entries admitted over a batch of articles carry article ids
drawn without repetition from those articles. -/
theorem mkEntries_aids_sublist (arts : List Article) :
    ∀ cfg : Config, ∀ V : List ℚ, ∀ qid now : Nat,
    ((mkEntries cfg V qid now arts).map (fun e => e.article_id)).Sublist
      (arts.map (fun a => a.id)) := by
  induction arts with
  | nil => intro cfg V qid now; simp [mkEntries]
  | cons a rest ih =>
      intro cfg V qid now
      cases h : rankArticle cfg V a with
      | some f =>
          simp only [mkEntries, h, List.map_cons]
          exact List.Sublist.cons₂ _ (ih cfg V (qid + 1) now)
      | none =>
          simp only [mkEntries, h, List.map_cons]
          exact List.Sublist.cons _ (ih cfg V qid now)

/-- The first-run store is well formed. -/
theorem WF.base (v : List ℚ) : WF ⟨[], [], v⟩ := by
  refine ⟨?_, ?_, ?_, ?_, ?_⟩ <;> simp

/-- One pipeline run preserves well-formedness. -/
theorem WF.run (cfg : Config) (cands : List Candidate) (now : Nat) {s : Store}
    (h : WF s) : WF (runPipeline cfg s cands now) := by
  obtain ⟨hdn, hdf⟩ := dedupByUrl_spec cands (s.articles.map (fun a => a.url))
  refine ⟨?_, ?_, ?_, ?_, ?_⟩
  · rw [runPipeline_articles, List.map_append, mkArticles_map_url]
    refine List.Nodup.append h.urls_nodup hdn ?_
    intro u hu1 hu2
    rcases List.mem_map.1 hu2 with ⟨c, hc, rfl⟩
    exact hdf c hc hu1
  · rw [runPipeline_articles]
    intro a ha
    rw [List.length_append, mkArticles_length]
    rcases List.mem_append.1 ha with ha1 | ha2
    · exact Nat.lt_of_lt_of_le (h.ids_lt a ha1) (Nat.le_add_right _ _)
    · exact (mkArticles_id_bounds _ _ a ha2).2
  · rw [runPipeline_articles, List.map_append]
    refine List.Nodup.append h.ids_nodup (mkArticles_ids_nodup _ _) ?_
    intro x hx1 hx2
    rcases List.mem_map.1 hx1 with ⟨a, ha, rfl⟩
    rcases List.mem_map.1 hx2 with ⟨b, hb, hba⟩
    have h1 := h.ids_lt a ha
    have h2 := (mkArticles_id_bounds _ _ b hb).1
    rw [hba] at h2
    omega
  · rw [runPipeline_queue, List.map_append]
    refine List.Nodup.append h.q_aids_nodup
      (List.Nodup.sublist (mkEntries_aids_sublist _ _ _ _ _)
        (mkArticles_ids_nodup _ _)) ?_
    intro x hx1 hx2
    rcases List.mem_map.1 hx1 with ⟨e, he, rfl⟩
    have h1 := h.q_aids_lt e he
    have hx2' := (mkEntries_aids_sublist _ _ _ _ _).subset hx2
    rcases List.mem_map.1 hx2' with ⟨b, hb, hba⟩
    have h2 := (mkArticles_id_bounds _ _ b hb).1
    rw [hba] at h2
    omega
  · rw [runPipeline_queue, runPipeline_articles]
    intro e he
    rw [List.length_append, mkArticles_length]
    rcases List.mem_append.1 he with he1 | he2
    · exact Nat.lt_of_lt_of_le (h.q_aids_lt e he1) (Nat.le_add_right _ _)
    · have hmem := (mkEntries_aids_sublist _ _ _ _ _).subset
        (List.mem_map_of_mem (fun e => e.article_id) he2)
      rcases List.mem_map.1 hmem with ⟨b, hb, hba⟩
      have h2 := (mkArticles_id_bounds _ _ b hb).2
      rw [hba] at h2
      exact h2

/-- The Article table after a feedback action on a found article: only the
interaction status of the targeted row changes. -/
theorem postFeedAction_found_articles (alpha : ℚ) (s : Store) (aid : Nat)
    (act : FAction) (a : Article)
    (hf : s.articles.find? (fun b => b.id == aid) = some a) :
    (postFeedAction alpha s aid act).1.articles
      = s.articles.map (fun b => if b.id = aid
          then { b with interaction_status :=
            (match act with | FAction.like => 1 | FAction.skip => 3) }
          else b) := by
  unfold postFeedAction
  rw [hf]

/-- The FeedQueue after a feedback action on a found article: only the
status of the targeted rows changes. -/
theorem postFeedAction_found_queue (alpha : ℚ) (s : Store) (aid : Nat)
    (act : FAction) (a : Article)
    (hf : s.articles.find? (fun b => b.id == aid) = some a) :
    (postFeedAction alpha s aid act).1.queue
      = s.queue.map (fun x => if x.article_id = aid
          then { x with status :=
            (match act with
             | FAction.like => QStatus.liked
             | FAction.skip => QStatus.skipped) }
          else x) := by
  unfold postFeedAction
  rw [hf]

/-- One feedback action preserves well-formedness. -/
theorem WF.feedback (alpha : ℚ) (aid : Nat) (act : FAction) {s : Store}
    (h : WF s) : WF (postFeedAction alpha s aid act).1 := by
  cases hf : s.articles.find? (fun b => b.id == aid) with
  | none =>
      have hs : (postFeedAction alpha s aid act).1 = s := by
        unfold postFeedAction
        rw [hf]
      rw [hs]
      exact h
  | some a =>
      have hart := postFeedAction_found_articles alpha s aid act a hf
      have hque := postFeedAction_found_queue alpha s aid act a hf
      have hurl : (postFeedAction alpha s aid act).1.articles.map (fun a => a.url)
          = s.articles.map (fun a => a.url) := by
        rw [hart, List.map_map]
        exact List.map_congr_left
          (fun b _ => by by_cases hb : b.id = aid <;> simp [hb])
      have hid : (postFeedAction alpha s aid act).1.articles.map (fun a => a.id)
          = s.articles.map (fun a => a.id) := by
        rw [hart, List.map_map]
        exact List.map_congr_left
          (fun b _ => by by_cases hb : b.id = aid <;> simp [hb])
      have hlen : (postFeedAction alpha s aid act).1.articles.length
          = s.articles.length := by
        rw [hart, List.length_map]
      have haid : (postFeedAction alpha s aid act).1.queue.map (fun e => e.article_id)
          = s.queue.map (fun e => e.article_id) := by
        rw [hque, List.map_map]
        exact List.map_congr_left
          (fun x _ => by by_cases hx : x.article_id = aid <;> simp [hx])
      refine ⟨?_, ?_, ?_, ?_, ?_⟩
      · rw [hurl]; exact h.urls_nodup
      · intro b hb
        rw [hlen]
        rw [hart] at hb
        rcases List.mem_map.1 hb with ⟨b₀, hb₀, rfl⟩
        have hlt := h.ids_lt b₀ hb₀
        by_cases hb' : b₀.id = aid
        · rw [if_pos hb']; exact hlt
        · rw [if_neg hb']; exact hlt
      · rw [hid]; exact h.ids_nodup
      · rw [haid]; exact h.q_aids_nodup
      · intro e he
        rw [hlen]
        rw [hque] at he
        rcases List.mem_map.1 he with ⟨e₀, he₀, rfl⟩
        have hlt := h.q_aids_lt e₀ he₀
        by_cases he' : e₀.article_id = aid
        · rw [if_pos he']; exact hlt
        · rw [if_neg he']; exact hlt

/-- Every reachable store is well formed. -/
theorem reachable_WF {s : Store} (h : Reachable s) : WF s := by
  induction h with
  | init v => exact WF.base v
  | run cfg cands now _ ih => exact WF.run cfg cands now ih
  | feedback alpha aid act _ ih => exact WF.feedback alpha aid act ih

/-- A list whose image under `f` has no duplicates holds at most one
element with any given `f`-value. -/
theorem countP_map_nodup_le_one {α β : Type} [DecidableEq β] (f : α → β)
    (l : List α) (h : (l.map f).Nodup) (u : β) :
    l.countP (fun a => decide (f a = u)) ≤ 1 := by
  induction l with
  | nil => simp
  | cons a t ih =>
      rw [List.map_cons, List.nodup_cons] at h
      rw [List.countP_cons]
      by_cases ha : f a = u
      · have ht : t.countP (fun x => decide (f x = u)) = 0 := by
          rw [List.countP_eq_zero]
          intro b hb
          simp only [decide_eq_true_eq]
          intro hbu
          exact h.1 (by rw [ha, ← hbu]; exact List.mem_map_of_mem f hb)
        simp [ht, ha]
      · have hfa : (decide (f a = u)) = false := decide_eq_false ha
        rw [hfa]
        simpa using ih h.2

/-- C2: in every reachable store at most one Article row carries any given
URL, and a URL already present is never re-fetched or re-processed — a later
run leaves the rows holding that URL exactly as they were. -/
theorem C2_url_dedup (s : Store) (h : Reachable s) (u : String) :
    s.articles.countP (fun a => decide (a.url = u)) ≤ 1 ∧
    ∀ cfg : Config, ∀ cands : List Candidate, ∀ now : Nat,
      u ∈ s.articles.map (fun a => a.url) →
      (runPipeline cfg s cands now).articles.filter (fun a => decide (a.url = u))
        = s.articles.filter (fun a => decide (a.url = u)) := by
  have hwf := reachable_WF h
  refine ⟨countP_map_nodup_le_one (fun a => a.url) s.articles hwf.urls_nodup u, ?_⟩
  intro cfg cands now hu
  rw [runPipeline_articles, List.filter_append]
  have hnil : (mkArticles s.articles.length
      (dedupByUrl (s.articles.map (fun a => a.url)) cands)).filter
        (fun a => decide (a.url = u)) = [] := by
    rw [List.filter_eq_nil_iff]
    intro a ha
    have hmem := List.mem_map_of_mem (fun a => a.url) ha
    rw [mkArticles_map_url] at hmem
    rcases List.mem_map.1 hmem with ⟨c, hc, hcu⟩
    have hck := (dedupByUrl_spec cands (s.articles.map (fun a => a.url))).2 c hc
    simp only [decide_eq_true_eq]
    intro hau
    have hcu' : c.url = u := by rw [hcu]; exact hau
    exact hck (by rw [hcu']; exact hu)
  rw [hnil, List.append_nil]

/-- Witness for C2 after one concrete run that stored one URL. -/
theorem C2_witness :
    Reachable (runPipeline ⟨6/10, 4/10, 7/10⟩ ⟨[], [], [1, 0, 0, 0]⟩
      [⟨0, "https://a/1", "t", "c", none, some (4/5), none, 0,
        some [9, 3, 3, 1]⟩] 0) ∧
    (runPipeline ⟨6/10, 4/10, 7/10⟩ ⟨[], [], [1, 0, 0, 0]⟩
      [⟨0, "https://a/1", "t", "c", none, some (4/5), none, 0,
        some [9, 3, 3, 1]⟩] 0).articles.countP
        (fun a => decide (a.url = "https://a/1")) ≤ 1 := by
  have hr : Reachable (runPipeline ⟨6/10, 4/10, 7/10⟩ ⟨[], [], [1, 0, 0, 0]⟩
      [⟨0, "https://a/1", "t", "c", none, some (4/5), none, 0,
        some [9, 3, 3, 1]⟩] 0) :=
    Reachable.run ⟨6/10, 4/10, 7/10⟩
      [⟨0, "https://a/1", "t", "c", none, some (4/5), none, 0,
        some [9, 3, 3, 1]⟩] 0 (Reachable.init [1, 0, 0, 0])
  exact ⟨hr, (C2_url_dedup _ hr "https://a/1").1⟩

/-- C5: in every reachable store at most one queue entry per article is
unread, and an article whose queue entry was already skipped or liked is
never re-admitted by any later run — the queue rows for that article are
exactly preserved. -/
theorem C5_no_duplicate_admission (s : Store) (h : Reachable s) (aid : Nat) :
    s.queue.countP (fun e => decide (e.article_id = aid)
        && decide (e.status = QStatus.unread)) ≤ 1 ∧
    ∀ cfg : Config, ∀ cands : List Candidate, ∀ now : Nat,
      (∃ e ∈ s.queue, e.article_id = aid ∧
        (e.status = QStatus.skipped ∨ e.status = QStatus.liked)) →
      (runPipeline cfg s cands now).queue.filter
          (fun e => decide (e.article_id = aid))
        = s.queue.filter (fun e => decide (e.article_id = aid)) := by
  have hwf := reachable_WF h
  constructor
  · calc s.queue.countP (fun e => decide (e.article_id = aid)
          && decide (e.status = QStatus.unread))
        ≤ s.queue.countP (fun e => decide (e.article_id = aid)) :=
          List.countP_mono_left
            (fun e _ hp => by
              simp only [Bool.and_eq_true] at hp
              exact hp.1)
      _ ≤ 1 := countP_map_nodup_le_one (fun e => e.article_id) s.queue
            hwf.q_aids_nodup aid
  · intro cfg cands now hex
    obtain ⟨e, he, heid, _⟩ := hex
    have haid : aid < s.articles.length := heid ▸ hwf.q_aids_lt e he
    rw [runPipeline_queue, List.filter_append]
    have hnil : (mkEntries cfg s.user_embedding s.queue.length now
        (mkArticles s.articles.length
          (dedupByUrl (s.articles.map (fun a => a.url)) cands))).filter
          (fun x => decide (x.article_id = aid)) = [] := by
      rw [List.filter_eq_nil_iff]
      intro x hx
      have hmem := (mkEntries_aids_sublist _ _ _ _ _).subset
        (List.mem_map_of_mem (fun x => x.article_id) hx)
      rcases List.mem_map.1 hmem with ⟨b, hb, hba⟩
      have h2 := (mkArticles_id_bounds _ _ b hb).1
      simp only [decide_eq_true_eq]
      intro hxa
      omega
    rw [hnil, List.append_nil]

/-- Witness for C5 after one concrete run and one skip action. -/
theorem C5_witness :
    Reachable (postFeedAction (2/10)
      (runPipeline ⟨6/10, 4/10, 7/10⟩ ⟨[], [], [1, 0, 0, 0]⟩
        [⟨0, "https://a/1", "t", "c", none, some (4/5), none, 0,
          some [9, 3, 3, 1]⟩] 0) 0 FAction.skip).1 ∧
    (postFeedAction (2/10)
      (runPipeline ⟨6/10, 4/10, 7/10⟩ ⟨[], [], [1, 0, 0, 0]⟩
        [⟨0, "https://a/1", "t", "c", none, some (4/5), none, 0,
          some [9, 3, 3, 1]⟩] 0) 0 FAction.skip).1.queue.countP
        (fun e => decide (e.article_id = 0)
          && decide (e.status = QStatus.unread)) ≤ 1 := by
  have hr : Reachable (postFeedAction (2/10)
      (runPipeline ⟨6/10, 4/10, 7/10⟩ ⟨[], [], [1, 0, 0, 0]⟩
        [⟨0, "https://a/1", "t", "c", none, some (4/5), none, 0,
          some [9, 3, 3, 1]⟩] 0) 0 FAction.skip).1 :=
    Reachable.feedback (2/10) 0 FAction.skip
      (Reachable.run ⟨6/10, 4/10, 7/10⟩
        [⟨0, "https://a/1", "t", "c", none, some (4/5), none, 0,
          some [9, 3, 3, 1]⟩] 0 (Reachable.init [1, 0, 0, 0]))
  exact ⟨hr, (C5_no_duplicate_admission _ hr 0).1⟩

end PersonaFlow
